import Mathlib

/-!
Verification of the core logic of `pump_watcher.py`: the debounce-and-fan-out
monitor (`AbstractPump`) and the synthetic sample generator
(`gen_random_samples` and its helpers).

The Python code is shallowly embedded:

* Statuses are integers (`PUMP_ON = 1`, `PUMP_OFF = 0`, the no-hardware
  sentinel `-1`); `prev_status` is `Option ℤ` (`none` models Python `None`).
* A registered logger is `Option Sink` (`none` models a falsy/absent logger,
  skipped by the `if l:` guard in the fan-out loop).  A `Sink` carries an
  identifier and a flag saying whether its `log` call raises; the embedding of
  `event` returns, besides the new object state, the list of `log` invocations
  made (sink id together with the `[status]` payload) and a boolean that is
  `false` when a raising sink aborted the call (the exception propagates, so
  statements after the raise - in particular the `prev_status` assignment -
  do not run).
* The random module is modelled by oracles: a stream `ℕ → ℚ` of draws in
  `[0,1)` for `random.random()` and a stream `ℕ → ℕ` of raw draws for
  `random.randint(0, b)`, the latter reduced modulo `b + 1` so that the result
  ranges over `0..b` inclusive, exactly as Python's inclusive `randint`.
  Timestamps are seconds (a `ℕ`) from an arbitrary start instant `ts0`;
  `datetime.timedelta(0, s)` adds `s` seconds.
* The `while sample_id <= length` loop is driven by explicit fuel (one unit
  per iteration); running out of fuel yields `none`, modelling a run whose
  random draws have not yet produced enough events.
-/

/-- `PUMP_ON = 1` from `pump_watcher.py`. -/
def PUMP_ON : ℤ := 1

/-- `PUMP_OFF = 0` from `pump_watcher.py`. -/
def PUMP_OFF : ℤ := 0

/-- A registered logger: an identifier plus whether its `log` method raises. -/
structure Sink where
  id : ℕ
  fails : Bool
deriving DecidableEq, Repr

/-- The state of an `AbstractPump` object: the GPIO pin, the list of
registered loggers (`none` is an absent/falsy entry) and the previous
status used for debouncing (`none` is Python's `None`). -/
structure AbstractPump where
  pin : ℤ
  loggers : List (Option Sink)
  prev_status : Option ℤ
deriving DecidableEq, Repr

/-- `AbstractPump.__init__`: empty logger list, remembered pin,
`prev_status = None`. -/
def AbstractPump.make (pin : ℤ) : AbstractPump :=
  { pin := pin, loggers := [], prev_status := none }

/-- `AbstractPump.get_status`: the default no-hardware implementation,
always returns `-1`. -/
def AbstractPump.get_status (_pin : ℤ) : ℤ := -1

/-- `AbstractPump.add_listener`: appends the new logger to the list. -/
def AbstractPump.add_listener (p : AbstractPump) (new_logger : Option Sink) :
    AbstractPump :=
  { p with loggers := p.loggers ++ [new_logger] }

/-- The fan-out loop of `AbstractPump.event`:
`for l in self.loggers: if l: l.log([status])`.
Returns the `log` invocations made, in order, each with its `[status]`
payload, and `true` iff no invoked sink raised.  A raising sink aborts the
loop (its own invocation is recorded, then the exception propagates). -/
def runSinks : List (Option Sink) → ℤ → List (ℕ × List ℤ) × Bool
  | [], _ => ([], true)
  | none :: rest, status => runSinks rest status
  | some l :: rest, status =>
    if l.fails then ([(l.id, [status])], false)
    else
      let r := runSinks rest status
      ((l.id, [status]) :: r.1, r.2)

/-- `AbstractPump.event`, applied to the status read in its body.
Result: the new object state, `none` when the reading was skipped
(`status == self.prev_status`) or `some ds` when the fan-out loop ran and
made the invocations `ds`, and `true` iff no sink raised.  When a sink
raises, the assignment `self.prev_status = status` (which textually follows
the loop) never executes, so `prev_status` is unchanged. -/
def AbstractPump.event (p : AbstractPump) (status : ℤ) :
    AbstractPump × Option (List (ℕ × List ℤ)) × Bool :=
  if p.prev_status = some status then (p, none, true)
  else
    let r := runSinks p.loggers status
    if r.2 then ({ p with prev_status := some status }, some r.1, true)
    else (p, some r.1, false)

/-- Successive calls of `event` on a list of statuses.  Collects the fan-out
passes: one entry `(status, invocations)` per call whose fan-out loop ran.
(When a call raised, the driver goes on with the next reading.) -/
def runEvents : AbstractPump → List ℤ → AbstractPump × List (ℤ × List (ℕ × List ℤ))
  | p, [] => (p, [])
  | p, s :: rest =>
    let r1 := p.event s
    let r2 := runEvents r1.1 rest
    match r1.2.1 with
    | none => (r2.1, r2.2)
    | some ds => (r2.1, (s, ds) :: r2.2)

/-- No registered sink raises. -/
def NoFail (loggers : List (Option Sink)) : Prop :=
  ∀ l ∈ loggers, ∀ s, l = some s → s.fails = false

instance (loggers : List (Option Sink)) : Decidable (NoFail loggers) := by
  unfold NoFail; infer_instance

/-- The number of indices `i` with `sᵢ ≠ sᵢ₋₁`, the previous value before the
list being `prev` (`none` = undefined, differing from every status). -/
def changes : Option ℤ → List ℤ → ℕ
  | _, [] => 0
  | prev, s :: rest => (if prev = some s then 0 else 1) + changes (some s) rest

/-- The subsequence of statuses that differ from their predecessor
(predecessor before the list = `prev`). -/
def dedupFrom : Option ℤ → List ℤ → List ℤ
  | _, [] => []
  | prev, s :: rest =>
    if prev = some s then dedupFrom prev rest else s :: dedupFrom (some s) rest

/-- `gen_random_event(threshold)`: `PUMP_ON` iff the draw `r` of
`random.random()` satisfies `r >= threshold`, else `PUMP_OFF`.  Polymorphic
in the ordered field of the draw, so the very same definition is run on `ℚ`
draws and analysed on `ℝ`, where `[0,1)` carries Lebesgue measure. -/
def gen_random_event {α : Type} [LinearOrderedField α] (threshold : α) (r : α) : ℤ :=
  if r ≥ threshold then PUMP_ON else PUMP_OFF

/-- `gen_mainly_on()`: `gen_random_event(0.2)` on its `random.random()` draw. -/
def gen_mainly_on {α : Type} [LinearOrderedField α] (r : α) : ℤ :=
  gen_random_event 0.2 r

/-- `gen_mainly_off()`: `gen_random_event(0.8)` on its `random.random()` draw. -/
def gen_mainly_off {α : Type} [LinearOrderedField α] (r : α) : ℤ :=
  gen_random_event 0.8 r

/-- `random.randint(0, b)` applied to a raw oracle draw `d`: a uniform draw
from `{0, …, b}` (both bounds inclusive), obtained by reducing `d` mod `b+1`. -/
def randint (d b : ℕ) : ℕ := d % (b + 1)

/-- A generated sample `[ts.strftime(...), sample_id, event]`: timestamp in
seconds from the start instant, sample id, and state (`PUMP_ON`/`PUMP_OFF`). -/
structure Event where
  ts : ℕ
  sample_id : ℕ
  state : ℤ
deriving DecidableEq, Repr

/-- Local state of the `gen_random_samples` loop: the accumulated `data`,
the clock `ts`, the next `sample_id`, and the positions `fi`, `ii` of the
next unread draw of the `random.random()` and `random.randint` oracles. -/
structure GenState where
  data : List Event
  ts : ℕ
  sample_id : ℕ
  fi : ℕ
  ii : ℕ
deriving DecidableEq, Repr

/-- First half of the loop body of `gen_random_samples`: attempt a `PUMP_ON`
event; on acceptance advance the clock by `45*60` seconds plus
`randint(0, 100*60)` seconds and append `[ts, sample_id, PUMP_ON]`. -/
def onSlot (fs : ℕ → ℚ) (ds : ℕ → ℕ) (st : GenState) : GenState :=
  if gen_mainly_on (fs st.fi) = PUMP_ON then
    let ts1 := st.ts + 45 * 60 + randint (ds st.ii) (100 * 60)
    { data := st.data ++ [⟨ts1, st.sample_id, PUMP_ON⟩], ts := ts1,
      sample_id := st.sample_id + 1, fi := st.fi + 1, ii := st.ii + 1 }
  else
    { st with fi := st.fi + 1 }

/-- Second half of the loop body of `gen_random_samples`: attempt a
`PUMP_OFF` event; on acceptance advance the clock by `randint(0, 10*60)`
seconds and append `[ts, sample_id, PUMP_OFF]`. -/
def offSlot (fs : ℕ → ℚ) (ds : ℕ → ℕ) (st : GenState) : GenState :=
  if gen_mainly_off (fs st.fi) = PUMP_OFF then
    let ts2 := st.ts + randint (ds st.ii) (10 * 60)
    { data := st.data ++ [⟨ts2, st.sample_id, PUMP_OFF⟩], ts := ts2,
      sample_id := st.sample_id + 1, fi := st.fi + 1, ii := st.ii + 1 }
  else
    { st with fi := st.fi + 1 }

/-- One iteration of the `while sample_id <= length` loop body of
`gen_random_samples`: the `PUMP_ON` attempt followed by the `PUMP_OFF`
attempt. -/
def genStep (fs : ℕ → ℚ) (ds : ℕ → ℕ) (st : GenState) : GenState :=
  offSlot fs ds (onSlot fs ds st)

/-- The `while sample_id <= length` loop, driven by fuel (one unit per
iteration); `none` when the fuel is exhausted before the loop condition
turns false. -/
def genLoop (fs : ℕ → ℚ) (ds : ℕ → ℕ) (length : ℕ) : ℕ → GenState → Option GenState
  | 0, st => if length < st.sample_id then some st else none
  | fuel + 1, st =>
    if length < st.sample_id then some st
    else genLoop fs ds length fuel (genStep fs ds st)

/-- `gen_random_samples(length)`: start the clock at `ts0` and `sample_id`
at 1, run the loop, and truncate the result to `length` entries
(`return data[:length]`). -/
def gen_random_samples (fs : ℕ → ℚ) (ds : ℕ → ℕ) (ts0 : ℕ) (fuel : ℕ)
    (length : ℕ) : Option (List Event) :=
  (genLoop fs ds length fuel ⟨[], ts0, 1, 0, 0⟩).map fun st => st.data.take length

/-- The stream start, as a pseudo-event: the initial clock value `ts0`
(before any event is generated), with a dummy id and state. -/
def startEvent (ts0 : ℕ) : Event := ⟨ts0, 0, PUMP_OFF⟩

/-- The last generated event, or the stream start when none exists yet. -/
def lastEvent (ts0 : ℕ) (data : List Event) : Event :=
  data.getLast?.getD (startEvent ts0)

/-- The timestamp-gap bounds the generator actually enforces between an
event `e2` and its predecessor `e1`: a `PUMP_ON` comes `45*60` seconds plus
an extra of at most `100*60` seconds (inclusive) after `e1`; a `PUMP_OFF`
comes at most `10*60` seconds (inclusive) after `e1`. -/
def gapOK (e1 e2 : Event) : Prop :=
  (e2.state = PUMP_ON → e1.ts + 45 * 60 ≤ e2.ts ∧ e2.ts ≤ e1.ts + 45 * 60 + 100 * 60) ∧
  (e2.state = PUMP_OFF → e1.ts ≤ e2.ts ∧ e2.ts ≤ e1.ts + 10 * 60)

instance (e1 e2 : Event) : Decidable (gapOK e1 e2) := by
  unfold gapOK; infer_instance

/-- Modelled from the spec: the dwell-time bounds as the spec states them,
with a half-open extra delay `[0, 100)` minutes for `PUMP_ON` and a strict
`< 10` minutes gap for `PUMP_OFF`.  Stated only to be compared against the
behaviour of `gen_random_samples`. -/
def dwellSpecGap (e1 e2 : Event) : Prop :=
  (e2.state = PUMP_ON → e1.ts + 45 * 60 ≤ e2.ts ∧ e2.ts < e1.ts + 45 * 60 + 100 * 60) ∧
  (e2.state = PUMP_OFF → e1.ts ≤ e2.ts ∧ e2.ts < e1.ts + 10 * 60)

instance (e1 e2 : Event) : Decidable (dwellSpecGap e1 e2) := by
  unfold dwellSpecGap; infer_instance

/-- Loop invariant of `gen_random_samples`, on the loop's local data:
`sample_id` is one past the number of generated events, the generated ids
are exactly `1, 2, …`, the clock equals the last event's timestamp, and the
event list satisfies the gap bounds and timestamp monotonicity from the
stream start. -/
def GenInvD (ts0 : ℕ) (data : List Event) (sid ts : ℕ) : Prop :=
  data.length + 1 = sid ∧
  data.map Event.sample_id = List.range' 1 data.length ∧
  (lastEvent ts0 data).ts = ts ∧
  List.Chain' gapOK (startEvent ts0 :: data) ∧
  List.Chain' (fun a b => a.ts ≤ b.ts) (startEvent ts0 :: data)

/-- `GenInvD` read off a `GenState`. -/
def GenInv (ts0 : ℕ) (st : GenState) : Prop :=
  GenInvD ts0 st.data st.sample_id st.ts

/-! ## Lemmas about the monitor -/

theorem noFail_of_cons {l : Option Sink} {rest : List (Option Sink)}
    (h : NoFail (l :: rest)) : NoFail rest :=
  fun x hx s hs => h x (List.mem_cons_of_mem _ hx) s hs

theorem runSinks_eq_of_noFail {loggers : List (Option Sink)} (h : NoFail loggers)
    (status : ℤ) :
    runSinks loggers status =
      ((loggers.filterMap id).map fun l => (l.id, [status]), true) := by
  induction loggers with
  | nil => rfl
  | cons l rest ih =>
    cases l with
    | none => simpa [runSinks] using ih (noFail_of_cons h)
    | some s =>
      have hs : s.fails = false := h (some s) (List.mem_cons_self _ _) s rfl
      simp [runSinks, hs, ih (noFail_of_cons h)]

theorem event_of_noFail {p : AbstractPump} (h : NoFail p.loggers) {status : ℤ}
    (hne : ¬ p.prev_status = some status) :
    p.event status =
      ({ p with prev_status := some status },
        some ((p.loggers.filterMap id).map fun l => (l.id, [status])), true) := by
  unfold AbstractPump.event
  rw [if_neg hne]
  simp [runSinks_eq_of_noFail h]

theorem runEvents_fanouts {loggers : List (Option Sink)} (h : NoFail loggers)
    (ss : List ℤ) :
    ∀ (pin : ℤ) (prev : Option ℤ),
      ((runEvents ⟨pin, loggers, prev⟩ ss).2).map Prod.fst = dedupFrom prev ss := by
  induction ss with
  | nil => intro pin prev; rfl
  | cons s rest ih =>
    intro pin prev
    by_cases hp : prev = some s
    · subst hp
      have hev : (⟨pin, loggers, some s⟩ : AbstractPump).event s =
          (⟨pin, loggers, some s⟩, none, true) := by
        unfold AbstractPump.event
        exact if_pos rfl
      simp [runEvents, hev, dedupFrom, ih pin (some s)]
    · have hev := @event_of_noFail ⟨pin, loggers, prev⟩ h s hp
      simp [runEvents, hev, dedupFrom, hp, ih pin (some s)]

theorem dedupFrom_length (prev : Option ℤ) (ss : List ℤ) :
    (dedupFrom prev ss).length = changes prev ss := by
  induction ss generalizing prev with
  | nil => rfl
  | cons s rest ih =>
    by_cases hp : prev = some s <;> simp [dedupFrom, changes, hp, ih, Nat.add_comm]

theorem dedupFrom_chain (ss : List ℤ) :
    ∀ prev, List.Chain' (fun a b => a ≠ b) (dedupFrom prev ss) ∧
      ∀ x, (dedupFrom prev ss).head? = some x → prev ≠ some x := by
  induction ss with
  | nil => intro prev; simp [dedupFrom]
  | cons s rest ih =>
    intro prev
    by_cases hp : prev = some s
    · have hd : dedupFrom prev (s :: rest) = dedupFrom prev rest := by
        rw [dedupFrom, if_pos hp]
      rw [hd]
      exact ih prev
    · obtain ⟨hc, hh⟩ := ih (some s)
      refine ⟨?_, ?_⟩
      · rw [dedupFrom, if_neg hp]
        refine List.chain'_cons'.mpr ⟨?_, hc⟩
        intro y hy heq
        exact hh y hy (by rw [heq])
      · intro x hx
        rw [dedupFrom, if_neg hp] at hx
        simp only [List.head?_cons, Option.some.injEq] at hx
        subst hx
        exact hp

/-! ## Claims about the monitor -/

/-- **C1**: over any sequence of readings fed to successive `event` calls of
a fresh monitor whose sinks do not raise, the number of fan-out passes
equals the number of indices where the status differs from its predecessor
(the pre-history value `none` differs from every status, so the first
reading always counts), and no two consecutive fan-out passes carry the
same status. -/
theorem monitor_fanout_count (p : AbstractPump) (ss : List ℤ)
    (hfresh : p.prev_status = none) (hok : NoFail p.loggers) :
    ((runEvents p ss).2).length = changes none ss ∧
      List.Chain' (fun f g => f.1 ≠ g.1) (runEvents p ss).2 := by
  obtain ⟨pin, loggers, prev⟩ := p
  simp only at hfresh hok
  subst hfresh
  have hm := runEvents_fanouts hok ss pin none
  refine ⟨?_, ?_⟩
  · rw [← dedupFrom_length, ← hm, List.length_map]
  · have hchain := (dedupFrom_chain ss none).1
    rw [← hm] at hchain
    exact (List.chain'_map _).mp hchain

/-- Witness for C1: the spec's own example `[ON, ON, OFF, OFF, ON]` on a
fresh monitor with one console-like sink gives exactly 3 fan-out passes and
no two consecutive passes share a status. -/
theorem monitor_fanout_count_witness :
    (⟨4, [some ⟨0, false⟩], none⟩ : AbstractPump).prev_status = none ∧
    NoFail [some ⟨0, false⟩] ∧
    (((runEvents ⟨4, [some ⟨0, false⟩], none⟩ [1, 1, 0, 0, 1]).2).length =
        changes none [1, 1, 0, 0, 1] ∧
      List.Chain' (fun f g => f.1 ≠ g.1)
        (runEvents ⟨4, [some ⟨0, false⟩], none⟩ [1, 1, 0, 0, 1]).2) :=
  ⟨rfl, by decide,
    monitor_fanout_count ⟨4, [some ⟨0, false⟩], none⟩ [1, 1, 0, 0, 1] rfl (by decide)⟩

/-- **C4**: a single genuine transition invokes each registered non-null
sink exactly once, in registration order, with the single-element payload
`[status]`; a sink registered twice appears twice.  (The sinks are assumed
not to raise, as in the claim; the fan-out list is exactly the registered
non-null sinks in order.) -/
theorem single_transition_fanout_order (p : AbstractPump) (status : ℤ)
    (htrans : ¬ p.prev_status = some status) (hok : NoFail p.loggers) :
    p.event status =
      ({ p with prev_status := some status },
        some ((p.loggers.filterMap id).map fun l => (l.id, [status])), true) :=
  event_of_noFail hok htrans

/-- Witness for C4: a sink registered twice (around a null entry) fires
twice, in registration order, each time with payload `[1]`. -/
theorem single_transition_fanout_order_witness :
    (¬ (⟨4, [some ⟨7, false⟩, none, some ⟨7, false⟩], some 0⟩ : AbstractPump).prev_status
        = some 1) ∧
    NoFail [some ⟨7, false⟩, none, some ⟨7, false⟩] ∧
    (⟨4, [some ⟨7, false⟩, none, some ⟨7, false⟩], some 0⟩ : AbstractPump).event 1 =
      (⟨4, [some ⟨7, false⟩, none, some ⟨7, false⟩], some 1⟩,
        some [(7, [1]), (7, [1])], true) :=
  ⟨by decide, by decide, by
    have h := single_transition_fanout_order
      ⟨4, [some ⟨7, false⟩, none, some ⟨7, false⟩], some 0⟩ 1 (by decide) (by decide)
    simpa using h⟩

/-- **C5**: a null (absent) entry in the sink list is skipped by the
fan-out loop without raising and without being invoked: the invocations
made and the no-raise flag are the same as if the entry were not there, so
all other registered sinks are still delivered to. -/
theorem null_sink_skipped (xs ys : List (Option Sink)) (status : ℤ) :
    runSinks (xs ++ none :: ys) status = runSinks (xs ++ ys) status := by
  induction xs with
  | nil => rfl
  | cons l rest ih =>
    cases l with
    | none => simpa [runSinks] using ih
    | some s => by_cases hf : s.fails <;> simp [runSinks, hf, ih]

/-- **C2, counterexample**: on a fresh monitor with one registered sink, the
very first `-1` reading produced by the default no-hardware `get_status` is
*not* inert: the fan-out loop runs (delivering `[-1]` to the sink) and
`prev_status` changes from `none` to `some (-1)`. -/
theorem unknown_reading_not_inert :
    ((AbstractPump.event ⟨4, [some ⟨0, false⟩], none⟩
        (AbstractPump.get_status 4)).2.1 ≠ none) ∧
    ((AbstractPump.event ⟨4, [some ⟨0, false⟩], none⟩
        (AbstractPump.get_status 4)).1.prev_status ≠ none) := by
  decide

/-- **C2, amended**: a `-1` (unknown) reading is handled like any other
status: the call is a no-op (no fan-out, no state change) precisely when
the last-known status is already `-1`; otherwise the fan-out loop runs. -/
theorem unknown_inert_iff_already_unknown (p : AbstractPump) :
    p.event (AbstractPump.get_status p.pin) = (p, none, true) ↔
      p.prev_status = some (-1) := by
  unfold AbstractPump.get_status
  constructor
  · intro h
    by_contra hp
    have h2 : (p.event (-1)).2.1 = none := by rw [h]
    unfold AbstractPump.event at h2
    rw [if_neg hp] at h2
    by_cases hr : (runSinks p.loggers (-1)).2 <;> simp [hr] at h2
  · intro hp
    unfold AbstractPump.event
    rw [if_pos hp]

/-- **C3, counterexample**: a genuine transition whose (single) sink raises
leaves `prev_status` uncommitted (`none`, not the new state), the call
raises, and the next identical reading triggers the fan-out loop again. -/
theorem sink_failure_recommit :
    ((AbstractPump.event ⟨4, [some ⟨0, true⟩], none⟩ 1).1.prev_status = none) ∧
    ((AbstractPump.event ⟨4, [some ⟨0, true⟩], none⟩ 1).2.2 = false) ∧
    (((AbstractPump.event ⟨4, [some ⟨0, true⟩], none⟩ 1).1.event 1).2.1 ≠ none) := by
  decide

/-- **C3, amended**: `prev_status` is assigned only after the fan-out loop
completes, so when a sink raises the monitor object is left unchanged and a
subsequent reading with the same status runs the fan-out loop again (the
same transition is re-reported). -/
theorem sink_failure_no_commit (p : AbstractPump) (status : ℤ)
    (hfail : (p.event status).2.2 = false) :
    (p.event status).1 = p ∧ ((p.event status).1.event status).2.1 ≠ none := by
  have hne : ¬ p.prev_status = some status := by
    intro hp
    unfold AbstractPump.event at hfail
    rw [if_pos hp] at hfail
    simp at hfail
  have hr : (runSinks p.loggers status).2 = false := by
    unfold AbstractPump.event at hfail
    rw [if_neg hne] at hfail
    by_cases h2 : (runSinks p.loggers status).2
    · simp [h2] at hfail
    · simpa using h2
  have hev : p.event status = (p, some (runSinks p.loggers status).1, false) := by
    unfold AbstractPump.event
    rw [if_neg hne]
    simp [hr]
  refine ⟨by rw [hev], ?_⟩
  rw [hev]
  simp only
  unfold AbstractPump.event
  rw [if_neg hne]
  by_cases h2 : (runSinks p.loggers status).2 <;> simp [h2]

/-- Witness for the amended C3: concrete failing-sink run. -/
theorem sink_failure_no_commit_witness :
    ((AbstractPump.event ⟨4, [some ⟨0, true⟩], some 0⟩ 1).2.2 = false) ∧
    ((AbstractPump.event ⟨4, [some ⟨0, true⟩], some 0⟩ 1).1 =
        (⟨4, [some ⟨0, true⟩], some 0⟩ : AbstractPump) ∧
      ((AbstractPump.event ⟨4, [some ⟨0, true⟩], some 0⟩ 1).1.event 1).2.1 ≠ none) :=
  ⟨by decide, sink_failure_no_commit ⟨4, [some ⟨0, true⟩], some 0⟩ 1 (by decide)⟩

/-! ## Lemmas about the generator -/

theorem cons_getLast? (a : Event) (l : List Event) :
    (a :: l).getLast? = some (l.getLast?.getD a) := by
  induction l generalizing a with
  | nil => rfl
  | cons b l ih => simp [List.getLast?_cons_cons, ih]

theorem genInvD_push {ts0 : ℕ} {data : List Event} {sid ts : ℕ} {e : Event}
    (hinv : GenInvD ts0 data sid ts) (hsid : e.sample_id = sid)
    (hgap : gapOK (lastEvent ts0 data) e) (hle : ts ≤ e.ts) :
    GenInvD ts0 (data ++ [e]) (sid + 1) e.ts := by
  obtain ⟨h1, h2, h3, h4, h5⟩ := hinv
  refine ⟨by simp; omega, ?_, ?_, ?_, ?_⟩
  · have hlen : (data ++ [e]).length = data.length + 1 := by simp
    rw [List.map_append, h2, hlen, List.range'_concat]
    simp only [List.map_cons, List.map_nil, hsid]
    congr 1
    simp only [List.cons.injEq, and_true]
    omega
  · unfold lastEvent
    rw [List.getLast?_concat]
    rfl
  · rw [show startEvent ts0 :: (data ++ [e]) = (startEvent ts0 :: data) ++ [e] by rfl]
    refine List.chain'_append.mpr ⟨h4, List.chain'_singleton e, ?_⟩
    intro x hx y hy
    have hxl : x = lastEvent ts0 data := by
      rw [cons_getLast?] at hx
      simpa [lastEvent, eq_comm] using hx
    have hye : y = e := by simpa [eq_comm] using hy
    rw [hxl, hye]
    exact hgap
  · rw [show startEvent ts0 :: (data ++ [e]) = (startEvent ts0 :: data) ++ [e] by rfl]
    refine List.chain'_append.mpr ⟨h5, List.chain'_singleton e, ?_⟩
    intro x hx y hy
    have hxl : x = lastEvent ts0 data := by
      rw [cons_getLast?] at hx
      simpa [lastEvent, eq_comm] using hx
    have hye : y = e := by simpa [eq_comm] using hy
    rw [hxl, hye, h3]
    exact hle

theorem randint_le (d b : ℕ) : randint d b ≤ b := by
  have := Nat.mod_lt d (show 0 < b + 1 by omega)
  unfold randint
  omega

theorem onSlot_inv {ts0 : ℕ} (fs : ℕ → ℚ) (ds : ℕ → ℕ) {st : GenState}
    (h : GenInv ts0 st) : GenInv ts0 (onSlot fs ds st) := by
  unfold onSlot
  by_cases hon : gen_mainly_on (fs st.fi) = PUMP_ON
  · rw [if_pos hon]
    have hgap : gapOK (lastEvent ts0 st.data)
        ⟨st.ts + 45 * 60 + randint (ds st.ii) (100 * 60), st.sample_id, PUMP_ON⟩ := by
      constructor
      · intro _
        have hd := randint_le (ds st.ii) (100 * 60)
        have hts : (lastEvent ts0 st.data).ts = st.ts := h.2.2.1
        dsimp only
        rw [hts]
        omega
      · intro hoff
        dsimp only at hoff
        exact absurd hoff (by decide)
    exact genInvD_push h rfl hgap (by dsimp only; omega)
  · rw [if_neg hon]
    exact h

theorem offSlot_inv {ts0 : ℕ} (fs : ℕ → ℚ) (ds : ℕ → ℕ) {st : GenState}
    (h : GenInv ts0 st) : GenInv ts0 (offSlot fs ds st) := by
  unfold offSlot
  by_cases hoff : gen_mainly_off (fs st.fi) = PUMP_OFF
  · rw [if_pos hoff]
    have hgap : gapOK (lastEvent ts0 st.data)
        ⟨st.ts + randint (ds st.ii) (10 * 60), st.sample_id, PUMP_OFF⟩ := by
      constructor
      · intro hon
        dsimp only at hon
        exact absurd hon (by decide)
      · intro _
        have hd := randint_le (ds st.ii) (10 * 60)
        have hts : (lastEvent ts0 st.data).ts = st.ts := h.2.2.1
        dsimp only
        rw [hts]
        omega
    exact genInvD_push h rfl hgap (by dsimp only; omega)
  · rw [if_neg hoff]
    exact h

theorem genStep_inv {ts0 : ℕ} (fs : ℕ → ℚ) (ds : ℕ → ℕ) {st : GenState}
    (h : GenInv ts0 st) : GenInv ts0 (genStep fs ds st) :=
  offSlot_inv fs ds (onSlot_inv fs ds h)

theorem genLoop_inv {fs : ℕ → ℚ} {ds : ℕ → ℕ} {len ts0 : ℕ} :
    ∀ (fuel : ℕ) (st st' : GenState), genLoop fs ds len fuel st = some st' →
      GenInv ts0 st → GenInv ts0 st' ∧ len < st'.sample_id := by
  intro fuel
  induction fuel with
  | zero =>
    intro st st' h hinv
    unfold genLoop at h
    by_cases hc : len < st.sample_id
    · rw [if_pos hc] at h
      cases h
      exact ⟨hinv, hc⟩
    · rw [if_neg hc] at h
      cases h
  | succ fuel ih =>
    intro st st' h hinv
    unfold genLoop at h
    by_cases hc : len < st.sample_id
    · rw [if_pos hc] at h
      cases h
      exact ⟨hinv, hc⟩
    · rw [if_neg hc] at h
      exact ih _ _ h (genStep_inv fs ds hinv)

theorem gen_random_samples_spec {fs : ℕ → ℚ} {ds : ℕ → ℕ} {ts0 fuel len : ℕ}
    {data : List Event} (h : gen_random_samples fs ds ts0 fuel len = some data) :
    ∃ st', GenInv ts0 st' ∧ len < st'.sample_id ∧ data = st'.data.take len := by
  unfold gen_random_samples at h
  cases hg : genLoop fs ds len fuel ⟨[], ts0, 1, 0, 0⟩ with
  | none => rw [hg] at h; cases h
  | some st' =>
    rw [hg] at h
    have hd : st'.data.take len = data := by
      simpa using h
    have hinit : GenInv ts0 ⟨[], ts0, 1, 0, 0⟩ := by
      refine ⟨rfl, rfl, rfl, ?_, ?_⟩ <;> simp
    obtain ⟨hinv, hlt⟩ := genLoop_inv fuel _ _ hg hinit
    exact ⟨st', hinv, hlt, hd.symm⟩

theorem range'_take : ∀ (n s m : ℕ), (List.range' s n).take m = List.range' s (min m n) := by
  intro n
  induction n with
  | zero => simp
  | succ n ih =>
    intro s m
    cases m with
    | zero => simp
    | succ m =>
      rw [List.range'_succ s n 1, List.take_succ_cons, ih (s + 1) m,
        Nat.succ_min_succ, List.range'_succ s (min m n) 1]

/-! ## Claims about the generator -/

/-- **C6**: whenever `gen_random_samples` terminates (the loop condition
turns false within the provided fuel), the returned list has exactly
`length` entries: the loop appends until `sample_id` exceeds `length`
(possibly overshooting by one inside an iteration that appends a pair) and
the final `data[:length]` trims the overshoot.  With `length = 0` the loop
body never runs and the result is `some []` for any draws. -/
theorem gen_random_samples_length (fs : ℕ → ℚ) (ds : ℕ → ℕ) (ts0 fuel len : ℕ)
    (data : List Event) (h : gen_random_samples fs ds ts0 fuel len = some data) :
    data.length = len := by
  obtain ⟨st', hinv, hlt, hdata⟩ := gen_random_samples_spec h
  have h1 : st'.data.length + 1 = st'.sample_id := hinv.1
  subst hdata
  rw [List.length_take]
  omega

/-- Witness for C6: a concrete two-event run. -/
theorem gen_random_samples_length_witness :
    gen_random_samples (fun _ => (1/2 : ℚ)) (fun _ => 0) 0 1 2 =
      some [⟨2700, 1, PUMP_ON⟩, ⟨2700, 2, PUMP_OFF⟩] ∧
    ([⟨2700, 1, PUMP_ON⟩, ⟨2700, 2, PUMP_OFF⟩] : List Event).length = 2 :=
  ⟨by norm_num [gen_random_samples, genLoop, genStep, onSlot, offSlot, gen_mainly_on,
      gen_mainly_off, gen_random_event, randint, PUMP_ON, PUMP_OFF],
   gen_random_samples_length (fun _ => (1/2 : ℚ)) (fun _ => 0) 0 1 2
    [⟨2700, 1, PUMP_ON⟩, ⟨2700, 2, PUMP_OFF⟩]
    (by norm_num [gen_random_samples, genLoop, genStep, onSlot, offSlot, gen_mainly_on,
      gen_mainly_off, gen_random_event, randint, PUMP_ON, PUMP_OFF])⟩

/-- **C7**: in every successfully generated list, the `sample_id`s are the
gapless sequence `1, 2, …, length` and the timestamps of successive events
are non-decreasing. -/
theorem gen_random_samples_ids_monotone (fs : ℕ → ℚ) (ds : ℕ → ℕ)
    (ts0 fuel len : ℕ) (data : List Event)
    (h : gen_random_samples fs ds ts0 fuel len = some data) :
    data.map Event.sample_id = List.range' 1 len ∧
      List.Chain' (fun a b => a.ts ≤ b.ts) data := by
  obtain ⟨st', hinv, hlt, hdata⟩ := gen_random_samples_spec h
  obtain ⟨h1, h2, _h3, _h4, h5⟩ := hinv
  subst hdata
  constructor
  · rw [List.map_take, h2, range'_take]
    congr 1
    omega
  · exact h5.tail.take len

set_option maxRecDepth 100000 in
/-- Witness for C7: a concrete three-event run (with a rejected `PUMP_ON`
candidate in its second loop iteration). -/
theorem gen_random_samples_ids_monotone_witness :
    gen_random_samples (fun n => if n = 2 then 0 else (1/2 : ℚ)) (fun _ => 0) 0 2 3 =
      some [⟨2700, 1, PUMP_ON⟩, ⟨2700, 2, PUMP_OFF⟩, ⟨2700, 3, PUMP_OFF⟩] ∧
    (([⟨2700, 1, PUMP_ON⟩, ⟨2700, 2, PUMP_OFF⟩, ⟨2700, 3, PUMP_OFF⟩] : List Event).map
        Event.sample_id = List.range' 1 3 ∧
      List.Chain' (fun a b => a.ts ≤ b.ts)
        ([⟨2700, 1, PUMP_ON⟩, ⟨2700, 2, PUMP_OFF⟩, ⟨2700, 3, PUMP_OFF⟩] : List Event)) :=
  ⟨by norm_num [gen_random_samples, genLoop, genStep, onSlot, offSlot, gen_mainly_on,
      gen_mainly_off, gen_random_event, randint, PUMP_ON, PUMP_OFF],
   gen_random_samples_ids_monotone (fun n => if n = 2 then 0 else (1/2 : ℚ)) (fun _ => 0)
    0 2 3 [⟨2700, 1, PUMP_ON⟩, ⟨2700, 2, PUMP_OFF⟩, ⟨2700, 3, PUMP_OFF⟩]
    (by norm_num [gen_random_samples, genLoop, genStep, onSlot, offSlot, gen_mainly_on,
      gen_mainly_off, gen_random_event, randint, PUMP_ON, PUMP_OFF])⟩

/-- **C8, counterexample**: both strict bounds of the claim fail on the
code, because `random.randint(0, b)` includes `b`.  First run: the `PUMP_OFF`
delay draw is `600` seconds, so the `OFF` gap is exactly 10 minutes, not
`< 10`.  Second run: the `PUMP_ON` extra-delay draw is `6000` seconds, so
the extra delay is exactly 100 minutes, outside `[0, 100)`. -/
theorem gen_random_samples_dwell_strict_cex :
    (gen_random_samples (fun _ => (1/2 : ℚ)) (fun _ => 600) 0 1 2 =
        some [⟨3300, 1, PUMP_ON⟩, ⟨3900, 2, PUMP_OFF⟩] ∧
      ¬ dwellSpecGap ⟨3300, 1, PUMP_ON⟩ ⟨3900, 2, PUMP_OFF⟩) ∧
    (gen_random_samples (fun _ => (1/2 : ℚ)) (fun _ => 6000) 0 1 1 =
        some [⟨8700, 1, PUMP_ON⟩] ∧
      ¬ dwellSpecGap (startEvent 0) ⟨8700, 1, PUMP_ON⟩) :=
  ⟨⟨by norm_num [gen_random_samples, genLoop, genStep, onSlot, offSlot, gen_mainly_on,
      gen_mainly_off, gen_random_event, randint, PUMP_ON, PUMP_OFF], by decide⟩,
   ⟨by norm_num [gen_random_samples, genLoop, genStep, onSlot, offSlot, gen_mainly_on,
      gen_mainly_off, gen_random_event, randint, PUMP_ON, PUMP_OFF], by decide⟩⟩

/-- **C8, amended**: in every successfully generated list, each `PUMP_ON`
event comes at least `45*60` seconds after the preceding event (or the
stream start), with an extra delay of at most `100*60` seconds *inclusive*;
each `PUMP_OFF` event comes at least `0` and at most `10*60` seconds
*inclusive* after the preceding event. -/
theorem gen_random_samples_dwell_bounds (fs : ℕ → ℚ) (ds : ℕ → ℕ)
    (ts0 fuel len : ℕ) (data : List Event)
    (h : gen_random_samples fs ds ts0 fuel len = some data) :
    List.Chain' gapOK (startEvent ts0 :: data) := by
  obtain ⟨st', hinv, _hlt, hdata⟩ := gen_random_samples_spec h
  subst hdata
  have h4 := hinv.2.2.2.1
  have ht := h4.take (len + 1)
  rwa [List.take_succ_cons] at ht

/-- Witness for the amended C8: a run whose `OFF` gap is exactly 10
minutes still satisfies the inclusive bounds. -/
theorem gen_random_samples_dwell_bounds_witness :
    gen_random_samples (fun _ => (1/2 : ℚ)) (fun _ => 600) 10 1 2 =
      some [⟨3310, 1, PUMP_ON⟩, ⟨3910, 2, PUMP_OFF⟩] ∧
    List.Chain' gapOK
      (startEvent 10 :: [⟨3310, 1, PUMP_ON⟩, ⟨3910, 2, PUMP_OFF⟩]) :=
  ⟨by norm_num [gen_random_samples, genLoop, genStep, onSlot, offSlot, gen_mainly_on,
      gen_mainly_off, gen_random_event, randint, PUMP_ON, PUMP_OFF],
   gen_random_samples_dwell_bounds (fun _ => (1/2 : ℚ)) (fun _ => 600) 10 1 2
    [⟨3310, 1, PUMP_ON⟩, ⟨3910, 2, PUMP_OFF⟩]
    (by norm_num [gen_random_samples, genLoop, genStep, onSlot, offSlot, gen_mainly_on,
      gen_mainly_off, gen_random_event, randint, PUMP_ON, PUMP_OFF])⟩

set_option maxRecDepth 100000 in
/-- **C10**: the generated stream need not alternate: with draws that reject
the second iteration's `PUMP_ON` candidate but accept its `PUMP_OFF`
candidate, a list of length 3 contains two consecutive `PUMP_OFF` events. -/
theorem gen_random_samples_consecutive_same_state :
    ∃ (fs : ℕ → ℚ) (ds : ℕ → ℕ) (ts0 fuel len : ℕ) (data : List Event),
      2 ≤ len ∧ gen_random_samples fs ds ts0 fuel len = some data ∧
        ¬ List.Chain' (fun a b => a ≠ b) (data.map Event.state) := by
  refine ⟨fun n => if n = 2 then 0 else 1/2, fun _ => 0, 0, 2, 3,
    [⟨2700, 1, PUMP_ON⟩, ⟨2700, 2, PUMP_OFF⟩, ⟨2700, 3, PUMP_OFF⟩],
    by norm_num,
    by norm_num [gen_random_samples, genLoop, genStep, onSlot, offSlot, gen_mainly_on,
      gen_mainly_off, gen_random_event, randint, PUMP_ON, PUMP_OFF],
    ?_⟩
  intro hch
  have hmap : ([⟨2700, 1, PUMP_ON⟩, ⟨2700, 2, PUMP_OFF⟩,
      ⟨2700, 3, PUMP_OFF⟩] : List Event).map Event.state = [1, 0, 0] := by decide
  rw [hmap] at hch
  exact (List.chain'_cons.mp (List.chain'_cons.mp hch).2).1 rfl

/-! ## Acceptance probabilities of the event generators -/

theorem on_accept_set :
    {r : ℝ | r ∈ Set.Ico (0 : ℝ) 1 ∧ gen_mainly_on r = PUMP_ON} =
      Set.Ico (0.2 : ℝ) 1 := by
  ext r
  simp only [Set.mem_setOf_eq, Set.mem_Ico, gen_mainly_on, gen_random_event]
  constructor
  · rintro ⟨⟨_h0, h1⟩, hon⟩
    by_cases hr : (0.2 : ℝ) ≤ r
    · exact ⟨hr, h1⟩
    · rw [if_neg hr] at hon
      exact absurd hon (by decide)
  · rintro ⟨h2, h1⟩
    exact ⟨⟨le_trans (by norm_num) h2, h1⟩, if_pos h2⟩

theorem off_accept_set :
    {r : ℝ | r ∈ Set.Ico (0 : ℝ) 1 ∧ gen_mainly_off r = PUMP_OFF} =
      Set.Ico (0 : ℝ) 0.8 := by
  ext r
  simp only [Set.mem_setOf_eq, Set.mem_Ico, gen_mainly_off, gen_random_event]
  constructor
  · rintro ⟨⟨h0, _h1⟩, hoff⟩
    refine ⟨h0, ?_⟩
    by_contra hr
    push_neg at hr
    rw [if_pos hr] at hoff
    exact absurd hoff (by decide)
  · rintro ⟨h0, h8⟩
    exact ⟨⟨h0, lt_of_lt_of_le h8 (by norm_num)⟩, if_neg (not_le.mpr h8)⟩

theorem on_accept_volume :
    MeasureTheory.volume {r : ℝ | r ∈ Set.Ico (0 : ℝ) 1 ∧ gen_mainly_on r = PUMP_ON} =
      ENNReal.ofReal 0.8 := by
  rw [on_accept_set, Real.volume_Ico]
  congr 1
  norm_num

theorem off_accept_volume :
    MeasureTheory.volume {r : ℝ | r ∈ Set.Ico (0 : ℝ) 1 ∧ gen_mainly_off r = PUMP_OFF} =
      ENNReal.ofReal 0.8 := by
  rw [off_accept_set, Real.volume_Ico]
  congr 1
  norm_num

/-- **C9, counterexample**: with a uniform draw on `[0,1)`, the set of draws
on which `gen_mainly_off` accepts (returns `PUMP_OFF`) has measure `0.8`,
not `0.2`: the code returns `PUMP_OFF` for every `r < 0.8`. -/
theorem gen_mainly_off_acceptance_measure_ne :
    MeasureTheory.volume {r : ℝ | r ∈ Set.Ico (0 : ℝ) 1 ∧ gen_mainly_off r = PUMP_OFF} ≠
      ENNReal.ofReal 0.2 := by
  rw [off_accept_volume]
  intro hcontra
  have h := (ENNReal.ofReal_eq_ofReal_iff (by norm_num) (by norm_num)).mp hcontra
  norm_num at h

/-- **C9, amended**: modelling each `random.random()` call as a uniform draw
on `[0,1)`, both `gen_mainly_on` (accepting with `PUMP_ON`) and
`gen_mainly_off` (accepting with `PUMP_OFF`) accept on a set of draws of
measure `0.8` (rejection probability `0.2` each). -/
theorem gen_event_acceptance_measures :
    MeasureTheory.volume {r : ℝ | r ∈ Set.Ico (0 : ℝ) 1 ∧ gen_mainly_on r = PUMP_ON} =
        ENNReal.ofReal 0.8 ∧
      MeasureTheory.volume {r : ℝ | r ∈ Set.Ico (0 : ℝ) 1 ∧ gen_mainly_off r = PUMP_OFF} =
        ENNReal.ofReal 0.8 :=
  ⟨on_accept_volume, off_accept_volume⟩
